import Mathlib

/-
  Verification of the PortableMetadataManager subsystem
  (modules/platform/src/main/cpp/core/include/ignite/impl/portable/
   portable_metadata_manager.h).

  The repository ships only the class declaration of
  PortableMetadataManager: the private state (snapshots map, pending
  vector, pendingVer, ver) and the public operations GetHandler,
  SubmitHandler, GetVersion, IsUpdatedSince, ProcessPendingUpdates and
  the private helper CopyFields are declared but their bodies, together
  with the Snap and PortableMetadataHandler types, live outside the
  sources available here.  Those bodies are therefore modelled from the
  specification.  The critical section serializes every mutating
  operation, so an arbitrary thread interleaving is modelled as an
  arbitrary sequence of atomic operations on the manager state.
-/

namespace Ignite

/-- Modelled from the spec: the Snap value type (declared in
portable_metadata_handler.h, not among the sources).  An immutable
record of one type: type name, type id, set of field ids, and mapping
from field name to field id.  Field sets and maps are embedded as
lists. -/
structure Snap where
  typeName : String
  typeId : Int
  fieldIds : List Int
  fields : List (String × Int)
deriving DecidableEq

/-- The published snapshot map, TypeId to Snap, embedded as an
association list mirroring std::map from int32_t to SPSnap. -/
abbrev SnapMap := List (Int × Snap)

/-- Lookup in the published snapshot map. -/
def lookupSnap : SnapMap → Int → Option Snap
  | [], _ => none
  | (k, v) :: rest, tid => if k = tid then some v else lookupSnap rest tid

/-- Insert or replace the entry for a type id, mirroring std::map
update. -/
def insertSnap : SnapMap → Int → Snap → SnapMap
  | [], tid, s => [(tid, s)]
  | (k, v) :: rest, tid, s =>
      if k = tid then (tid, s) :: rest else (k, v) :: insertSnap rest tid s

/-- The empty base snapshot handed out for a never-before-seen type
id. -/
def emptySnap (tid : Int) : Snap :=
  { typeName := "", typeId := tid, fieldIds := [], fields := [] }

/-- The snapshot currently published for a type id, with the empty
snapshot as default for an unknown type. -/
def snapAt (m : SnapMap) (tid : Int) : Snap :=
  (lookupSnap m tid).getD (emptySnap tid)

/-- Modelled from the spec: the PortableMetadataHandler accumulator
(declared in portable_metadata_handler.h, not among the sources): the
type id it is bound to, the base snapshot it was created against, and
the accumulated newly observed (name, field id) pairs. -/
structure Handler where
  typeId : Int
  base : Snap
  newFields : List (String × Int)
deriving DecidableEq

/-- Modelled from the spec: PortableMetadataHandler field recording.
If the field is already present in the base snapshot (or already
recorded as new) this is a no-op; otherwise the (name, id) pair is
appended to the new-field set. -/
def OnFieldWritten (hnd : Handler) (name : String) (fid : Int) : Handler :=
  if fid ∈ hnd.base.fieldIds ∨ fid ∈ hnd.newFields.map Prod.snd then hnd
  else { hnd with newFields := hnd.newFields ++ [(name, fid)] }

/-- Record a whole list of fields on a handler, one OnFieldWritten call
per element, as one encode operation does. -/
def writeAll : Handler → List (String × Int) → Handler
  | hnd, [] => hnd
  | hnd, p :: rest => writeAll (OnFieldWritten hnd p.1 p.2) rest

/-- Manager state: the four data members declared in the header
(snapshots, pending, pendingVer, ver); the critical section is
modelled by atomicity of the operations. -/
structure ManagerState where
  snapshots : SnapMap
  pending : List Snap
  pendingVer : Int
  ver : Int
deriving DecidableEq

/-- Modelled from the spec: the constructor PortableMetadataManager():
empty published map, empty pending queue, zero counters. -/
def initialManager : ManagerState :=
  { snapshots := [], pending := [], pendingVer := 0, ver := 0 }

/-- Modelled from the spec: GetHandler(typeId).  Returns a fresh
accumulator bound to the type id, initialized against the currently
published snapshot for that type, or an empty base if the type is
unknown; never an error. -/
def GetHandler (st : ManagerState) (tid : Int) : Handler :=
  { typeId := tid, base := snapAt st.snapshots tid, newFields := [] }

/-- Modelled from the spec: the pending diff built from a submitted
handler: the newly observed fields of the handler, packaged as a Snap
(an SPSnap element of the pending vector). -/
def mkDiff (tn : String) (tid : Int) (hnd : Handler) : Snap :=
  { typeName := tn, typeId := tid,
    fieldIds := hnd.newFields.map Prod.snd, fields := hnd.newFields }

/-- Modelled from the spec: SubmitHandler(typeName, typeId, hnd).
Under the guard, appends the diff of the handler to the pending vector
and bumps the pending version by exactly one; the published map is not
touched. -/
def SubmitHandler (st : ManagerState) (tn : String) (tid : Int)
    (hnd : Handler) : ManagerState :=
  { st with pending := st.pending ++ [mkDiff tn tid hnd],
            pendingVer := st.pendingVer + 1 }

/-- Modelled from the spec: GetVersion(), the last published version. -/
def GetVersion (st : ManagerState) : Int := st.ver

/-- Modelled from the spec: IsUpdatedSince(oldVer), true when the
pending version counter has advanced past the given version. -/
def IsUpdatedSince (st : ManagerState) (oldVer : Int) : Bool :=
  decide (oldVer < st.pendingVer)

/-- The name currently recorded for a field id in a field collection,
if any. -/
def findName : List (String × Int) → Int → Option String
  | [], _ => none
  | q :: rest, f => if q.2 = f then some q.1 else findName rest f

/-- Modelled from the spec: the merge step underlying CopyFields.  Add
one (name, id) field to an accumulated field collection: a no-op if the
id is already present under the same name, a conflict error if it is
present under a different name, an append otherwise. -/
def addField (acc : List (String × Int)) (n : String) (f : Int) :
    Except Unit (List (String × Int)) :=
  match findName acc f with
  | some n0 => if n0 = n then Except.ok acc else Except.error ()
  | none => Except.ok (acc ++ [(n, f)])

/-- Modelled from the spec: fold a whole diff field list into an
accumulated field collection, surfacing the first conflict. -/
def mergeFields : List (String × Int) → List (String × Int) →
    Except Unit (List (String × Int))
  | acc, [] => Except.ok acc
  | acc, p :: rest =>
      match addField acc p.1 p.2 with
      | Except.error e => Except.error e
      | Except.ok acc2 => mergeFields acc2 rest

/-- Modelled from the spec: build the union snapshot of an old snapshot
and a diff (union by field id; a field id appearing with two different
names is a conflict), the pure counterpart of CopyFields. -/
def mergeSnap (old : Snap) (d : Snap) : Except Unit Snap :=
  match mergeFields old.fields d.fields with
  | Except.error e => Except.error e
  | Except.ok fs =>
      Except.ok { typeName := d.typeName, typeId := d.typeId,
                  fieldIds := fs.map Prod.snd, fields := fs }

/-- Modelled from the spec: merge one pending diff into a snapshot map
copy. -/
def applyDiff (m : SnapMap) (d : Snap) : Except Unit SnapMap :=
  match mergeSnap (snapAt m d.typeId) d with
  | Except.error e => Except.error e
  | Except.ok s => Except.ok (insertSnap m d.typeId s)

/-- Modelled from the spec: build the new snapshot map from the old one
and the drained pending diffs, in queue order. -/
def buildNewMap : SnapMap → List Snap → Except Unit SnapMap
  | m, [] => Except.ok m
  | m, d :: rest =>
      match applyDiff m d with
      | Except.error e => Except.error e
      | Except.ok m2 => buildNewMap m2 rest

/-- Outcome of ProcessPendingUpdates: success, a field definition
conflict detected during merge construction, or a failure reported by
the updater. -/
inductive ProcessResult where
  | ok
  | conflict
  | updaterFailure
deriving DecidableEq

/-- Modelled from the spec: ProcessPendingUpdates(updater, err).
Drains the whole pending queue, builds the new map as the union of the
published map and the drained diffs; a field conflict aborts without
publishing; otherwise the updater is invoked with the drained diffs,
and only on its success are the new map and the advanced version
published (the pending counter is resynchronized to the published
version).  On updater failure the new map is discarded, the published
map and version are untouched, and the drained diffs are not
re-enqueued. -/
def ProcessPendingUpdates (st : ManagerState)
    (updater : List Snap → Bool) : ProcessResult × ManagerState :=
  match buildNewMap st.snapshots st.pending with
  | Except.error _ => (ProcessResult.conflict, { st with pending := [] })
  | Except.ok newMap =>
      if updater st.pending then
        (ProcessResult.ok,
         { snapshots := newMap, pending := [],
           pendingVer := st.ver + 1, ver := st.ver + 1 })
      else
        (ProcessResult.updaterFailure, { st with pending := [] })

/-- One externally visible mutating call on the manager: a SubmitHandler
call or a ProcessPendingUpdates call with some updater. -/
inductive Op where
  | submit (tn : String) (tid : Int) (hnd : Handler)
  | process (updater : List Snap → Bool)

/-- Whether an operation is a SubmitHandler call. -/
def Op.isSubmit : Op → Bool
  | Op.submit _ _ _ => true
  | Op.process _ => false

/-- One step of the manager, with the error channel of the call: a
SubmitHandler call returns void, so its error component is always none;
a ProcessPendingUpdates call surfaces its non-ok result. -/
def step (st : ManagerState) : Op → ManagerState × Option ProcessResult
  | Op.submit tn tid hnd => (SubmitHandler st tn tid hnd, none)
  | Op.process u =>
      ((ProcessPendingUpdates st u).2,
       if (ProcessPendingUpdates st u).1 = ProcessResult.ok then none
       else some (ProcessPendingUpdates st u).1)

/-- Run a sequence of operations (one arbitrary interleaving of the
calls of many threads, serialized by the critical section). -/
def run : ManagerState → List Op → ManagerState
  | st, [] => st
  | st, op :: rest => run (step st op).1 rest

/-- A field collection is conflict-free when a field id determines its
field name. -/
def goodFields (l : List (String × Int)) : Prop :=
  ∀ a b f, (a, f) ∈ l → (b, f) ∈ l → a = b

/-- A snapshot is well formed when its field-id set covers its field
map. -/
def snapOK (s : Snap) : Prop :=
  ∀ n f, (n, f) ∈ s.fields → f ∈ s.fieldIds

theorem lookupSnap_insert_self (m : SnapMap) (tid : Int) (s : Snap) :
    lookupSnap (insertSnap m tid s) tid = some s := by
  induction m with
  | nil => simp [insertSnap, lookupSnap]
  | cons kv rest ih =>
      obtain ⟨k, v⟩ := kv
      by_cases h : k = tid
      · simp [insertSnap, h, lookupSnap]
      · simp [insertSnap, h, lookupSnap, ih]

theorem lookupSnap_insert_other (m : SnapMap) (tid tid2 : Int) (s : Snap)
    (h : tid2 ≠ tid) :
    lookupSnap (insertSnap m tid s) tid2 = lookupSnap m tid2 := by
  have h2 : ¬ (tid = tid2) := fun he => h he.symm
  induction m with
  | nil => simp [insertSnap, lookupSnap, h2]
  | cons kv rest ih =>
      obtain ⟨k, v⟩ := kv
      by_cases hk : k = tid
      · have hk2 : ¬ (k = tid2) := fun he => h2 (hk.symm.trans he)
        simp [insertSnap, hk, lookupSnap, h2, hk2]
      · simp [insertSnap, hk, lookupSnap, ih]

theorem snapAt_insert_self (m : SnapMap) (tid : Int) (s : Snap) :
    snapAt (insertSnap m tid s) tid = s := by
  simp [snapAt, lookupSnap_insert_self]

theorem snapAt_insert_other (m : SnapMap) (tid tid2 : Int) (s : Snap)
    (h : tid2 ≠ tid) :
    snapAt (insertSnap m tid s) tid2 = snapAt m tid2 := by
  simp [snapAt, lookupSnap_insert_other m tid tid2 s h]

theorem findName_mem {acc : List (String × Int)} {f : Int} {n0 : String}
    (h : findName acc f = some n0) : (n0, f) ∈ acc := by
  induction acc with
  | nil => simp [findName] at h
  | cons q rest ih =>
      obtain ⟨a, b⟩ := q
      by_cases hb : b = f
      · subst hb
        simp [findName] at h
        subst h
        exact List.mem_cons_self _ _
      · simp [findName, hb] at h
        exact List.mem_cons_of_mem _ (ih h)

theorem findName_none {acc : List (String × Int)} {f : Int}
    (h : findName acc f = none) (n : String) : (n, f) ∉ acc := by
  induction acc with
  | nil => simp
  | cons q rest ih =>
      obtain ⟨a, b⟩ := q
      by_cases hb : b = f
      · subst hb
        simp [findName] at h
      · simp [findName, hb] at h
        intro hmem
        rcases List.mem_cons.mp hmem with heq | hmem2
        · injection heq with h1 h2
          exact hb h2.symm
        · exact ih h hmem2

theorem addField_subset {acc acc2 : List (String × Int)} {n : String}
    {f : Int} (h : addField acc n f = Except.ok acc2) {n0 : String}
    {f0 : Int} (hm : (n0, f0) ∈ acc) : (n0, f0) ∈ acc2 := by
  cases hf : findName acc f with
  | some n1 =>
      by_cases he : n1 = n
      · simp [addField, hf, he] at h
        subst h
        exact hm
      · simp [addField, hf, he] at h
  | none =>
      simp [addField, hf] at h
      subst h
      exact List.mem_append_left _ hm

theorem addField_mem {acc acc2 : List (String × Int)} {n : String}
    {f : Int} (h : addField acc n f = Except.ok acc2) : (n, f) ∈ acc2 := by
  cases hf : findName acc f with
  | some n1 =>
      by_cases he : n1 = n
      · simp [addField, hf, he] at h
        subst h
        exact he ▸ findName_mem hf
      · simp [addField, hf, he] at h
  | none =>
      simp [addField, hf] at h
      subst h
      exact List.mem_append_right _ (by simp)

theorem addField_good {acc acc2 : List (String × Int)} {n : String}
    {f : Int} (hg : goodFields acc) (h : addField acc n f = Except.ok acc2) :
    goodFields acc2 := by
  cases hf : findName acc f with
  | some n1 =>
      by_cases he : n1 = n
      · simp [addField, hf, he] at h
        subst h
        exact hg
      · simp [addField, hf, he] at h
  | none =>
      simp [addField, hf] at h
      subst h
      have hnone := findName_none hf
      intro a b f0 ha hb
      rcases List.mem_append.mp ha with ha1 | ha2 <;>
        rcases List.mem_append.mp hb with hb1 | hb2
      · exact hg a b f0 ha1 hb1
      · simp at hb2
        exact absurd (hb2.2 ▸ ha1) (hnone a)
      · simp at ha2
        exact absurd (ha2.2 ▸ hb1) (hnone b)
      · simp at ha2 hb2
        rw [ha2.1, hb2.1]

theorem mergeFields_subset {l : List (String × Int)} :
    ∀ {acc acc2 : List (String × Int)},
    mergeFields acc l = Except.ok acc2 →
    ∀ {n0 : String} {f0 : Int}, (n0, f0) ∈ acc → (n0, f0) ∈ acc2 := by
  induction l with
  | nil =>
      intro acc acc2 h n0 f0 hm
      simp [mergeFields] at h
      subst h
      exact hm
  | cons p rest ih =>
      intro acc acc2 h n0 f0 hm
      cases ha : addField acc p.1 p.2 with
      | error e => simp [mergeFields, ha] at h
      | ok acc1 =>
          simp only [mergeFields, ha] at h
          exact ih h (addField_subset ha hm)

theorem mergeFields_mem {l : List (String × Int)} :
    ∀ {acc acc2 : List (String × Int)},
    mergeFields acc l = Except.ok acc2 →
    ∀ {n : String} {f : Int}, (n, f) ∈ l → (n, f) ∈ acc2 := by
  induction l with
  | nil =>
      intro acc acc2 h n f hm
      simp at hm
  | cons p rest ih =>
      intro acc acc2 h n f hm
      obtain ⟨pn, pf⟩ := p
      cases ha : addField acc pn pf with
      | error e => simp [mergeFields, ha] at h
      | ok acc1 =>
          simp only [mergeFields, ha] at h
          rcases List.mem_cons.mp hm with heq | hm2
          · injection heq with h1 h2
            subst h1
            subst h2
            exact mergeFields_subset h (addField_mem ha)
          · exact ih h hm2

theorem mergeFields_good {l : List (String × Int)} :
    ∀ {acc acc2 : List (String × Int)}, goodFields acc →
    mergeFields acc l = Except.ok acc2 → goodFields acc2 := by
  induction l with
  | nil =>
      intro acc acc2 hg h
      simp [mergeFields] at h
      subst h
      exact hg
  | cons p rest ih =>
      intro acc acc2 hg h
      cases ha : addField acc p.1 p.2 with
      | error e => simp [mergeFields, ha] at h
      | ok acc1 =>
          simp only [mergeFields, ha] at h
          exact ih (addField_good hg ha) h

theorem mergeSnap_mem_old {old d s : Snap}
    (h : mergeSnap old d = Except.ok s) {n : String} {f : Int}
    (hm : (n, f) ∈ old.fields) : (n, f) ∈ s.fields := by
  cases hmf : mergeFields old.fields d.fields with
  | error e => simp [mergeSnap, hmf] at h
  | ok fs =>
      simp only [mergeSnap, hmf] at h
      injection h with h2
      subst h2
      exact mergeFields_subset hmf hm

theorem mergeSnap_mem_diff {old d s : Snap}
    (h : mergeSnap old d = Except.ok s) {n : String} {f : Int}
    (hm : (n, f) ∈ d.fields) : (n, f) ∈ s.fields := by
  cases hmf : mergeFields old.fields d.fields with
  | error e => simp [mergeSnap, hmf] at h
  | ok fs =>
      simp only [mergeSnap, hmf] at h
      injection h with h2
      subst h2
      exact mergeFields_mem hmf hm

theorem mergeSnap_snapOK {old d s : Snap}
    (h : mergeSnap old d = Except.ok s) : snapOK s := by
  cases hmf : mergeFields old.fields d.fields with
  | error e => simp [mergeSnap, hmf] at h
  | ok fs =>
      simp only [mergeSnap, hmf] at h
      injection h with h2
      subst h2
      intro n f hm
      exact List.mem_map.mpr ⟨(n, f), hm, rfl⟩

theorem mergeSnap_good {old d s : Snap} (hg : goodFields old.fields)
    (h : mergeSnap old d = Except.ok s) : goodFields s.fields := by
  cases hmf : mergeFields old.fields d.fields with
  | error e => simp [mergeSnap, hmf] at h
  | ok fs =>
      simp only [mergeSnap, hmf] at h
      injection h with h2
      subst h2
      exact mergeFields_good hg hmf

theorem applyDiff_preserve {m m2 : SnapMap} {d : Snap}
    (h : applyDiff m d = Except.ok m2) {tid : Int} {n : String} {f : Int}
    (hm : (n, f) ∈ (snapAt m tid).fields) : (n, f) ∈ (snapAt m2 tid).fields := by
  cases hs : mergeSnap (snapAt m d.typeId) d with
  | error e => simp [applyDiff, hs] at h
  | ok s =>
      simp only [applyDiff, hs] at h
      injection h with h2
      subst h2
      by_cases ht : tid = d.typeId
      · subst ht
        rw [snapAt_insert_self]
        exact mergeSnap_mem_old hs hm
      · rw [snapAt_insert_other _ _ _ _ ht]
        exact hm

theorem applyDiff_mem {m m2 : SnapMap} {d : Snap}
    (h : applyDiff m d = Except.ok m2) {n : String} {f : Int}
    (hm : (n, f) ∈ d.fields) : (n, f) ∈ (snapAt m2 d.typeId).fields := by
  cases hs : mergeSnap (snapAt m d.typeId) d with
  | error e => simp [applyDiff, hs] at h
  | ok s =>
      simp only [applyDiff, hs] at h
      injection h with h2
      subst h2
      rw [snapAt_insert_self]
      exact mergeSnap_mem_diff hs hm

theorem applyDiff_snapOK {m m2 : SnapMap} {d : Snap}
    (h : applyDiff m d = Except.ok m2) {tid : Int}
    (hok : snapOK (snapAt m tid)) : snapOK (snapAt m2 tid) := by
  cases hs : mergeSnap (snapAt m d.typeId) d with
  | error e => simp [applyDiff, hs] at h
  | ok s =>
      simp only [applyDiff, hs] at h
      injection h with h2
      subst h2
      by_cases ht : tid = d.typeId
      · subst ht
        rw [snapAt_insert_self]
        exact mergeSnap_snapOK hs
      · rw [snapAt_insert_other _ _ _ _ ht]
        exact hok

theorem applyDiff_self_snapOK {m m2 : SnapMap} {d : Snap}
    (h : applyDiff m d = Except.ok m2) : snapOK (snapAt m2 d.typeId) := by
  cases hs : mergeSnap (snapAt m d.typeId) d with
  | error e => simp [applyDiff, hs] at h
  | ok s =>
      simp only [applyDiff, hs] at h
      injection h with h2
      subst h2
      rw [snapAt_insert_self]
      exact mergeSnap_snapOK hs

theorem applyDiff_good {m m2 : SnapMap} {d : Snap}
    (hg : ∀ tid, goodFields (snapAt m tid).fields)
    (h : applyDiff m d = Except.ok m2) :
    ∀ tid, goodFields (snapAt m2 tid).fields := by
  intro tid
  cases hs : mergeSnap (snapAt m d.typeId) d with
  | error e => simp [applyDiff, hs] at h
  | ok s =>
      simp only [applyDiff, hs] at h
      injection h with h2
      subst h2
      by_cases ht : tid = d.typeId
      · subst ht
        rw [snapAt_insert_self]
        exact mergeSnap_good (hg d.typeId) hs
      · rw [snapAt_insert_other _ _ _ _ ht]
        exact hg tid

theorem buildNewMap_preserve {ds : List Snap} :
    ∀ {m m2 : SnapMap}, buildNewMap m ds = Except.ok m2 →
    ∀ {tid : Int} {n : String} {f : Int},
    (n, f) ∈ (snapAt m tid).fields → (n, f) ∈ (snapAt m2 tid).fields := by
  induction ds with
  | nil =>
      intro m m2 h tid n f hm
      simp [buildNewMap] at h
      subst h
      exact hm
  | cons d rest ih =>
      intro m m2 h tid n f hm
      cases ha : applyDiff m d with
      | error e => simp [buildNewMap, ha] at h
      | ok mm =>
          simp only [buildNewMap, ha] at h
          exact ih h (applyDiff_preserve ha hm)

theorem buildNewMap_snapOK_preserve {ds : List Snap} :
    ∀ {m m2 : SnapMap}, buildNewMap m ds = Except.ok m2 →
    ∀ {tid : Int}, snapOK (snapAt m tid) → snapOK (snapAt m2 tid) := by
  induction ds with
  | nil =>
      intro m m2 h tid hok
      simp [buildNewMap] at h
      subst h
      exact hok
  | cons d rest ih =>
      intro m m2 h tid hok
      cases ha : applyDiff m d with
      | error e => simp [buildNewMap, ha] at h
      | ok mm =>
          simp only [buildNewMap, ha] at h
          exact ih h (applyDiff_snapOK ha hok)

theorem buildNewMap_mem {ds : List Snap} :
    ∀ {m m2 : SnapMap}, buildNewMap m ds = Except.ok m2 →
    ∀ {d : Snap}, d ∈ ds → ∀ {n : String} {f : Int}, (n, f) ∈ d.fields →
    (n, f) ∈ (snapAt m2 d.typeId).fields := by
  induction ds with
  | nil =>
      intro m m2 h d hd
      simp at hd
  | cons d0 rest ih =>
      intro m m2 h d hd n f hm
      cases ha : applyDiff m d0 with
      | error e => simp [buildNewMap, ha] at h
      | ok mm =>
          simp only [buildNewMap, ha] at h
          rcases List.mem_cons.mp hd with heq | hd2
          · subst heq
            exact buildNewMap_preserve h (applyDiff_mem ha hm)
          · exact ih h hd2 hm

theorem buildNewMap_touched_snapOK {ds : List Snap} :
    ∀ {m m2 : SnapMap}, buildNewMap m ds = Except.ok m2 →
    ∀ {d : Snap}, d ∈ ds → snapOK (snapAt m2 d.typeId) := by
  induction ds with
  | nil =>
      intro m m2 h d hd
      simp at hd
  | cons d0 rest ih =>
      intro m m2 h d hd
      cases ha : applyDiff m d0 with
      | error e => simp [buildNewMap, ha] at h
      | ok mm =>
          simp only [buildNewMap, ha] at h
          rcases List.mem_cons.mp hd with heq | hd2
          · subst heq
            exact buildNewMap_snapOK_preserve h (applyDiff_self_snapOK ha)
          · exact ih h hd2

theorem buildNewMap_good {ds : List Snap} :
    ∀ {m m2 : SnapMap}, (∀ tid, goodFields (snapAt m tid).fields) →
    buildNewMap m ds = Except.ok m2 →
    ∀ tid, goodFields (snapAt m2 tid).fields := by
  induction ds with
  | nil =>
      intro m m2 hg h
      simp [buildNewMap] at h
      subst h
      exact hg
  | cons d rest ih =>
      intro m m2 hg h
      cases ha : applyDiff m d with
      | error e => simp [buildNewMap, ha] at h
      | ok mm =>
          simp only [buildNewMap, ha] at h
          exact ih (applyDiff_good hg ha) h

theorem onFieldWritten_base (hnd : Handler) (n : String) (f : Int) :
    (OnFieldWritten hnd n f).base = hnd.base := by
  unfold OnFieldWritten
  split <;> rfl

theorem onFieldWritten_mono {hnd : Handler} {f0 : Int}
    (hm : f0 ∈ hnd.newFields.map Prod.snd) (n : String) (f : Int) :
    f0 ∈ (OnFieldWritten hnd n f).newFields.map Prod.snd := by
  unfold OnFieldWritten
  split
  · exact hm
  · have h2 : f0 ∈ (hnd.newFields ++ [(n, f)]).map Prod.snd := by
      rw [List.map_append]
      exact List.mem_append_left _ hm
    exact h2

theorem writeAll_base (l : List (String × Int)) :
    ∀ hnd : Handler, (writeAll hnd l).base = hnd.base := by
  induction l with
  | nil => intro hnd; rfl
  | cons p rest ih =>
      intro hnd
      simp only [writeAll]
      rw [ih]
      exact onFieldWritten_base hnd p.1 p.2

theorem writeAll_mono (l : List (String × Int)) :
    ∀ (hnd : Handler) {f0 : Int}, f0 ∈ hnd.newFields.map Prod.snd →
    f0 ∈ (writeAll hnd l).newFields.map Prod.snd := by
  induction l with
  | nil => intro hnd f0 hm; exact hm
  | cons p rest ih =>
      intro hnd f0 hm
      simp only [writeAll]
      exact ih _ (onFieldWritten_mono hm p.1 p.2)

theorem writeAll_covers (l : List (String × Int)) :
    ∀ (hnd : Handler) (p : String × Int), p ∈ l → p.2 ∉ hnd.base.fieldIds →
    p.2 ∈ (writeAll hnd l).newFields.map Prod.snd := by
  induction l with
  | nil => intro hnd p hp; simp at hp
  | cons q rest ih =>
      intro hnd p hp hnb
      simp only [writeAll]
      rcases List.mem_cons.mp hp with heq | hp2
      · subst heq
        apply writeAll_mono
        by_cases hc : p.2 ∈ hnd.base.fieldIds ∨ p.2 ∈ hnd.newFields.map Prod.snd
        · rcases hc with hc1 | hc2
          · exact absurd hc1 hnb
          · simp only [OnFieldWritten]
            rw [if_pos (Or.inr hc2)]
            exact hc2
        · simp only [OnFieldWritten]
          rw [if_neg hc]
          simp
      · exact ih _ p hp2 (by rw [onFieldWritten_base]; exact hnb)

theorem writeAll_noop (l : List (String × Int)) :
    ∀ hnd : Handler, (∀ p ∈ l, p.2 ∈ hnd.base.fieldIds) →
    writeAll hnd l = hnd := by
  induction l with
  | nil => intro hnd _; rfl
  | cons q rest ih =>
      intro hnd h
      simp only [writeAll]
      have hq : OnFieldWritten hnd q.1 q.2 = hnd := by
        simp only [OnFieldWritten]
        rw [if_pos (Or.inl (h q (List.mem_cons_self _ _)))]
      rw [hq]
      exact ih hnd (fun p hp => h p (List.mem_cons_of_mem _ hp))

theorem run_submits_pending (ops : List Op) :
    ∀ (st : ManagerState) (d : Snap), (∀ op ∈ ops, op.isSubmit = true) →
    d ∈ st.pending → d ∈ (run st ops).pending := by
  induction ops with
  | nil => intro st d _ hd; exact hd
  | cons op rest ih =>
      intro st d h hd
      cases op with
      | submit tn tid hnd =>
          refine ih _ d (fun o ho => h o (List.mem_cons_of_mem _ ho)) ?_
          exact List.mem_append_left _ hd
      | process u =>
          have hsub := h _ (List.mem_cons_self _ _)
          simp [Op.isSubmit] at hsub

theorem processPendingUpdates_ok_elim {st st2 : ManagerState}
    {u : List Snap → Bool}
    (h : ProcessPendingUpdates st u = (ProcessResult.ok, st2)) :
    ∃ newMap, buildNewMap st.snapshots st.pending = Except.ok newMap ∧
      u st.pending = true ∧
      st2 = { snapshots := newMap, pending := [],
              pendingVer := st.ver + 1, ver := st.ver + 1 } := by
  cases hb : buildNewMap st.snapshots st.pending with
  | error e => simp [ProcessPendingUpdates, hb] at h
  | ok m =>
      by_cases hu : u st.pending = true
      · have hPP : ProcessPendingUpdates st u =
            (ProcessResult.ok,
             { snapshots := m, pending := [],
               pendingVer := st.ver + 1, ver := st.ver + 1 }) := by
          simp [ProcessPendingUpdates, hb, hu]
        rw [hPP] at h
        injection h with h1 h2
        exact ⟨m, rfl, hu, h2.symm⟩
      · simp [ProcessPendingUpdates, hb, hu] at h

theorem ver_le_process (st : ManagerState) (u : List Snap → Bool) :
    st.ver ≤ ((ProcessPendingUpdates st u).2).ver := by
  cases hb : buildNewMap st.snapshots st.pending with
  | error e => simp [ProcessPendingUpdates, hb]
  | ok m =>
      by_cases hu : u st.pending = true
      · simp [ProcessPendingUpdates, hb, hu]
      · simp [ProcessPendingUpdates, hb, hu]

theorem ver_le_step (st : ManagerState) (op : Op) :
    st.ver ≤ ((step st op).1).ver := by
  cases op with
  | submit tn tid hnd => exact le_refl _
  | process u => exact ver_le_process st u

theorem ver_le_run (ops : List Op) :
    ∀ st : ManagerState, st.ver ≤ (run st ops).ver := by
  induction ops with
  | nil => intro st; exact le_refl _
  | cons op rest ih =>
      intro st
      exact le_trans (ver_le_step st op) (ih _)

/-- C4: every SubmitHandler call advances the pending version counter by
exactly one and leaves the published snapshot map and the published
version completely unchanged; SubmitHandler never merges into the
published map. -/
theorem submitHandler_bumps_pendingVer_only (st : ManagerState)
    (tn : String) (tid : Int) (hnd : Handler) :
    (SubmitHandler st tn tid hnd).pendingVer = st.pendingVer + 1 ∧
    (SubmitHandler st tn tid hnd).snapshots = st.snapshots ∧
    (SubmitHandler st tn tid hnd).ver = st.ver :=
  ⟨rfl, rfl, rfl⟩

/-- C9: SubmitHandler is declared void with no error out-parameter: on
the step relation of the manager a submit operation always completes
with an empty error channel, so a submission can never report a failure
to its caller. -/
theorem submitHandler_never_signals_error (st : ManagerState)
    (tn : String) (tid : Int) (hnd : Handler) :
    (step st (Op.submit tn tid hnd)).2 = none :=
  rfl

/-- C10: the pending queue is a flat sequence of snapshot diffs not
keyed by type id: each SubmitHandler call appends exactly one entry at
the tail, two submissions for the same type id coexist as separate
entries in submission order, and any ProcessPendingUpdates call drains
the whole queue. -/
theorem pending_flat_queue :
    (∀ (st : ManagerState) (tn : String) (tid : Int) (hnd : Handler),
      (SubmitHandler st tn tid hnd).pending =
        st.pending ++ [mkDiff tn tid hnd]) ∧
    (∀ (st : ManagerState) (tn1 tn2 : String) (tid : Int) (h1 h2 : Handler),
      (SubmitHandler (SubmitHandler st tn1 tid h1) tn2 tid h2).pending =
        st.pending ++ [mkDiff tn1 tid h1, mkDiff tn2 tid h2]) ∧
    (∀ (st : ManagerState) (u : List Snap → Bool),
      ((ProcessPendingUpdates st u).2).pending = []) := by
  refine ⟨fun st tn tid hnd => rfl, fun st tn1 tn2 tid h1 h2 => ?_,
    fun st u => ?_⟩
  · simp [SubmitHandler]
  · cases hb : buildNewMap st.snapshots st.pending with
    | error e => simp [ProcessPendingUpdates, hb]
    | ok m =>
        by_cases hu : u st.pending = true <;>
          simp [ProcessPendingUpdates, hb, hu]

/-- C2: when the updater reports failure, ProcessPendingUpdates
surfaces the failure to the caller, the published snapshot map and the
published version are exactly what they were before the call (the new
map is discarded), and the drained pending diffs are not re-enqueued. -/
theorem updater_failure_discards_and_preserves (st : ManagerState)
    (u : List Snap → Bool) (m : SnapMap)
    (hm : buildNewMap st.snapshots st.pending = Except.ok m)
    (hu : u st.pending = false) :
    ProcessPendingUpdates st u =
      (ProcessResult.updaterFailure, { st with pending := [] }) := by
  have hu2 : ¬ (u st.pending = true) := by simp [hu]
  simp [ProcessPendingUpdates, hm, hu2]

/-- Witness for C2: a concrete manager with one pending diff and an
always-failing updater keeps its published map and version and returns
the failure. -/
theorem updater_failure_discards_and_preserves_witness :
    ProcessPendingUpdates
      { snapshots := [],
        pending := [{ typeName := "T", typeId := 1, fieldIds := [1],
                      fields := [("a", 1)] }],
        pendingVer := 1, ver := 0 }
      (fun _ => false) =
      (ProcessResult.updaterFailure,
       { snapshots := [], pending := [], pendingVer := 1, ver := 0 }) :=
  updater_failure_discards_and_preserves _ _
    [(1, { typeName := "T", typeId := 1, fieldIds := [1],
           fields := [("a", 1)] })] rfl rfl

/-- C5: IsUpdatedSince has no false negatives: it returns true whenever
the pending version counter has advanced past the given version; and
immediately after a successful ProcessPendingUpdates that started with
no pending diffs it returns false for the just published version. -/
theorem isUpdatedSince_hint :
    (∀ (st : ManagerState) (v : Int), v < st.pendingVer →
      IsUpdatedSince st v = true) ∧
    (∀ (st st2 : ManagerState) (u : List Snap → Bool), st.pending = [] →
      ProcessPendingUpdates st u = (ProcessResult.ok, st2) →
      IsUpdatedSince st2 (GetVersion st2) = false) := by
  constructor
  · intro st v h
    simp [IsUpdatedSince, h]
  · intro st st2 u _ h
    obtain ⟨m, _, _, hst2⟩ := processPendingUpdates_ok_elim h
    subst hst2
    simp [IsUpdatedSince, GetVersion]

/-- Witness for C5: a state whose pending counter is ahead of the asked
version answers true, and the version published by an empty successful
reconciliation answers false. -/
theorem isUpdatedSince_hint_witness :
    IsUpdatedSince
      { snapshots := [], pending := [], pendingVer := 5, ver := 0 } 3 = true ∧
    IsUpdatedSince (ProcessPendingUpdates initialManager (fun _ => true)).2
      (GetVersion (ProcessPendingUpdates initialManager (fun _ => true)).2) =
      false :=
  ⟨isUpdatedSince_hint.1 _ 3 (by decide),
   isUpdatedSince_hint.2 initialManager _ (fun _ => true) rfl rfl⟩

/-- C6: GetHandler succeeds for every type id, known or not: it always
returns a handler bound to the type id with an empty new-field set, and
when no snapshot is published for the type id the handler is
initialized against the empty base snapshot rather than any error being
raised. -/
theorem getHandler_total_unknown_empty_base :
    (∀ (st : ManagerState) (tid : Int),
      (GetHandler st tid).typeId = tid ∧ (GetHandler st tid).newFields = []) ∧
    (∀ (st : ManagerState) (tid : Int), lookupSnap st.snapshots tid = none →
      (GetHandler st tid).base = emptySnap tid) := by
  constructor
  · intro st tid
    exact ⟨rfl, rfl⟩
  · intro st tid h
    simp [GetHandler, snapAt, h]

/-- Witness for C6: type id 7 was never seen by the fresh manager and
its handler carries the empty base snapshot. -/
theorem getHandler_total_unknown_empty_base_witness :
    lookupSnap initialManager.snapshots 7 = none ∧
    (GetHandler initialManager 7).base = emptySnap 7 :=
  ⟨by decide,
   getHandler_total_unknown_empty_base.2 initialManager 7 (by decide)⟩

/-- C3: GetVersion is monotonically non-decreasing across any sequence
of operations on one manager instance, and the published version is
advanced by exactly one per successful ProcessPendingUpdates call and
not at all by a failing one. -/
theorem version_monotone_one_increment :
    (∀ (st : ManagerState) (ops : List Op),
      GetVersion st ≤ GetVersion (run st ops)) ∧
    (∀ (st st2 : ManagerState) (u : List Snap → Bool),
      ProcessPendingUpdates st u = (ProcessResult.ok, st2) →
      GetVersion st2 = GetVersion st + 1) ∧
    (∀ (st st2 : ManagerState) (u : List Snap → Bool) (r : ProcessResult),
      ProcessPendingUpdates st u = (r, st2) → r ≠ ProcessResult.ok →
      GetVersion st2 = GetVersion st) := by
  refine ⟨fun st ops => ver_le_run ops st, fun st st2 u h => ?_,
    fun st st2 u r h hr => ?_⟩
  · obtain ⟨m, _, _, hst2⟩ := processPendingUpdates_ok_elim h
    subst hst2
    rfl
  · have h2 : (ProcessPendingUpdates st u).2 = st2 := by rw [h]
    have h1 : (ProcessPendingUpdates st u).1 = r := by rw [h]
    subst h2
    cases hb : buildNewMap st.snapshots st.pending with
    | error e => simp [ProcessPendingUpdates, hb, GetVersion]
    | ok m =>
        by_cases hu : u st.pending = true
        · simp [ProcessPendingUpdates, hb, hu] at h1
          exact absurd h1.symm hr
        · simp [ProcessPendingUpdates, hb, hu, GetVersion]

/-- Witness for C3: one successful reconciliation advances the version
by one, a failing one leaves it unchanged, and a run is monotone. -/
theorem version_monotone_one_increment_witness :
    GetVersion initialManager ≤
      GetVersion (run initialManager [Op.process (fun _ => true)]) ∧
    GetVersion (ProcessPendingUpdates initialManager (fun _ => true)).2 =
      GetVersion initialManager + 1 ∧
    GetVersion (ProcessPendingUpdates initialManager (fun _ => false)).2 =
      GetVersion initialManager :=
  ⟨version_monotone_one_increment.1 initialManager [Op.process (fun _ => true)],
   version_monotone_one_increment.2.1 initialManager _ (fun _ => true) rfl,
   version_monotone_one_increment.2.2 initialManager _ (fun _ => false)
     ProcessResult.updaterFailure rfl (by decide)⟩

/-- C1: no submitted field is ever dropped: after a SubmitHandler call,
any further submissions from other threads, and a successful
ProcessPendingUpdates that drains the queue containing the submission,
every (name, id) field of the submitted handler appears in the
published snapshot for its type id. -/
theorem submitted_fields_never_dropped (st : ManagerState) (tn : String)
    (tid : Int) (hnd : Handler) (rest : List Op)
    (hrest : ∀ op ∈ rest, op.isSubmit = true) (u : List Snap → Bool)
    (st2 : ManagerState)
    (hok : ProcessPendingUpdates (run (SubmitHandler st tn tid hnd) rest) u =
      (ProcessResult.ok, st2)) :
    ∀ p ∈ hnd.newFields, p ∈ (snapAt st2.snapshots tid).fields := by
  intro p hp
  obtain ⟨m, hb, _, hst2⟩ := processPendingUpdates_ok_elim hok
  subst hst2
  have hmem : mkDiff tn tid hnd ∈ (run (SubmitHandler st tn tid hnd) rest).pending :=
    run_submits_pending rest _ _ hrest (List.mem_append_right _ (by simp))
  obtain ⟨pn, pf⟩ := p
  have hx := buildNewMap_mem hb hmem
    (show (pn, pf) ∈ (mkDiff tn tid hnd).fields from hp)
  simpa [mkDiff] using hx

/-- Witness for C1: a field submitted to the fresh manager is present in
the snapshot published by the reconciliation that drains it. -/
theorem submitted_fields_never_dropped_witness :
    ("a", (2 : Int)) ∈
      (snapAt ((ProcessPendingUpdates
        (run (SubmitHandler initialManager "T" 1
          { typeId := 1, base := emptySnap 1, newFields := [("a", 2)] }) [])
        (fun _ => true)).2).snapshots 1).fields :=
  submitted_fields_never_dropped initialManager "T" 1
    { typeId := 1, base := emptySnap 1, newFields := [("a", 2)] } []
    (fun op hop => by simp at hop) (fun _ => true) _ rfl
    ("a", 2) (by simp)

/-- C7: when two drained sources (two pending diffs, or a pending diff
and the published snapshot) assign the same field id to two different
names for the same type id, ProcessPendingUpdates detects the conflict
during merge construction, returns the distinct conflict error, and
publishes nothing: the snapshot map and the version are untouched. -/
theorem conflicting_field_rejected (st : ManagerState)
    (u : List Snap → Bool)
    (hWF : ∀ tid, goodFields (snapAt st.snapshots tid).fields)
    (tid : Int) (n1 n2 : String) (f : Int) (hne : n1 ≠ n2)
    (h1 : (∃ d ∈ st.pending, d.typeId = tid ∧ (n1, f) ∈ d.fields) ∨
      (n1, f) ∈ (snapAt st.snapshots tid).fields)
    (h2 : (∃ d ∈ st.pending, d.typeId = tid ∧ (n2, f) ∈ d.fields) ∨
      (n2, f) ∈ (snapAt st.snapshots tid).fields) :
    ProcessPendingUpdates st u =
      (ProcessResult.conflict, { st with pending := [] }) := by
  cases hb : buildNewMap st.snapshots st.pending with
  | ok m =>
      exfalso
      have key : ∀ n : String,
          ((∃ d ∈ st.pending, d.typeId = tid ∧ (n, f) ∈ d.fields) ∨
            (n, f) ∈ (snapAt st.snapshots tid).fields) →
          (n, f) ∈ (snapAt m tid).fields := by
        intro n hn
        rcases hn with ⟨d, hd, hdt, hdf⟩ | hs
        · have hx := buildNewMap_mem hb hd hdf
          rwa [hdt] at hx
        · exact buildNewMap_preserve hb hs
      exact hne (buildNewMap_good hWF hb tid n1 n2 f (key n1 h1) (key n2 h2))
  | error e => simp [ProcessPendingUpdates, hb]

/-- Witness for C7: two pending diffs give field id 1 the names a and b
for type 1; reconciliation reports the conflict and publishes nothing. -/
theorem conflicting_field_rejected_witness :
    ProcessPendingUpdates
      { snapshots := [],
        pending := [{ typeName := "T", typeId := 1, fieldIds := [1],
                      fields := [("a", 1)] },
                    { typeName := "T", typeId := 1, fieldIds := [1],
                      fields := [("b", 1)] }],
        pendingVer := 2, ver := 0 } (fun _ => true) =
      (ProcessResult.conflict,
       { snapshots := [], pending := [], pendingVer := 2, ver := 0 }) :=
  conflicting_field_rejected _ _
    (fun tid a b f ha _ => absurd ha (List.not_mem_nil _))
    1 "a" "b" 1 (by decide) (Or.inl (by decide)) (Or.inl (by decide))

/-- C8: round trip: encoding an object whose fields are all new,
submitting the handler, and reconciling successfully yields a published
snapshot such that a fresh handler for the same type, used to encode an
object referencing only those previously seen fields, accumulates an
empty new-field set. -/
theorem round_trip_new_fields_empty (st : ManagerState) (tn : String)
    (tid : Int) (fs : List (String × Int))
    (hnew : ∀ p ∈ fs, p.2 ∉ (GetHandler st tid).base.fieldIds)
    (u : List Snap → Bool) (st2 : ManagerState)
    (hok : ProcessPendingUpdates
        (SubmitHandler st tn tid (writeAll (GetHandler st tid) fs)) u =
      (ProcessResult.ok, st2))
    (fs2 : List (String × Int)) (href : ∀ p ∈ fs2, p.2 ∈ fs.map Prod.snd) :
    (writeAll (GetHandler st2 tid) fs2).newFields = [] := by
  obtain ⟨m, hb, _, hst2⟩ := processPendingUpdates_ok_elim hok
  have hdiffmem : mkDiff tn tid (writeAll (GetHandler st tid) fs) ∈
      (SubmitHandler st tn tid (writeAll (GetHandler st tid) fs)).pending :=
    List.mem_append_right _ (by simp)
  have hcover : ∀ p ∈ fs,
      p.2 ∈ (writeAll (GetHandler st tid) fs).newFields.map Prod.snd :=
    fun p hp => writeAll_covers fs (GetHandler st tid) p hp (hnew p hp)
  have hOK : snapOK (snapAt m tid) := by
    have hx := buildNewMap_touched_snapOK hb hdiffmem
    simpa [mkDiff] using hx
  have hfid : ∀ g : Int, g ∈ fs.map Prod.snd → g ∈ (snapAt m tid).fieldIds := by
    intro g hg
    obtain ⟨q, hq, hqf⟩ := List.mem_map.mp hg
    obtain ⟨q2, hq2m, hq2f⟩ := List.mem_map.mp (hcover q hq)
    obtain ⟨a, b⟩ := q2
    have hmem2 : (a, b) ∈ (snapAt m tid).fields := by
      have hx := buildNewMap_mem hb hdiffmem
        (show (a, b) ∈ (mkDiff tn tid (writeAll (GetHandler st tid) fs)).fields
          from hq2m)
      simpa [mkDiff] using hx
    rw [← hqf, ← hq2f]
    exact hOK a b hmem2
  have hbase : (GetHandler st2 tid).base = snapAt m tid := by
    rw [hst2]
    rfl
  have hnoop : writeAll (GetHandler st2 tid) fs2 = GetHandler st2 tid := by
    apply writeAll_noop
    intro p hp
    rw [hbase]
    exact hfid p.2 (href p hp)
  rw [hnoop]
  rfl

/-- Witness for C8: one new field is encoded, submitted and reconciled
on the fresh manager, and re-encoding it afterwards records nothing
new. -/
theorem round_trip_new_fields_empty_witness :
    (writeAll (GetHandler (ProcessPendingUpdates
        (SubmitHandler initialManager "T" 1
          (writeAll (GetHandler initialManager 1) [("a", 2)]))
        (fun _ => true)).2 1) [("a", 2)]).newFields = [] :=
  round_trip_new_fields_empty initialManager "T" 1 [("a", 2)]
    (by decide) (fun _ => true) _ rfl [("a", 2)] (by decide)

end Ignite
